import Mathlib

/-!
Verification development for the AlgoRhythm synthesis engine
(`synth-core.js` and the guitar page script).

The JavaScript code is embedded shallowly over exact rational arithmetic:
`Math.round` becomes `jsRound`, `Math.random()` draws become an abstract
stream `rand : ℕ → ℚ` of values in `[0,1)`, the WebAudio control path of
each `play*` function is recorded as the structure of the voice it builds
(installed parameter values, scheduled automation events, and the list of
sinks its output node is connected to), and the `KarplusStrong` class's
shift/push ring buffer becomes a `List ℚ` with `tic` as the step function.
-/

namespace AlgoRhythm

/-- `Math.round x` in JavaScript: floor of `x + 0.5` (ties go up). -/
def jsRound (q : ℚ) : ℤ := ⌊q + 1/2⌋

/-- The JavaScript `opts.x || dflt` idiom: `undefined` (here `none`) and the
falsy number `0` both select the default. -/
def jsOr (o : Option ℚ) (dflt : ℚ) : ℚ :=
  match o with
  | none => dflt
  | some v => if v = 0 then dflt else v

/-- The three sinks of the shared processing graph: the audible output
(`ctx.destination`), the capture sink (`SynthCore.dest` / `GUITAR.dest`,
a MediaStreamDestination for the recorder) and the analysis sink
(`SynthCore.analyser` / `GUITAR.analyser`). -/
inductive Sink
  | audible
  | capture
  | analysis
deriving DecidableEq

/-- The full three-sink fan-out `[audible, capture, analysis]`. -/
def allSinks : List Sink := [Sink.audible, Sink.capture, Sink.analysis]

/-- One scheduled WebAudio automation event on an AudioParam:
`setValueAtTime value time` or `exponentialRampToValueAtTime target time`. -/
inductive AutomationEvent
  | setValue (value time : ℚ)
  | expRamp (target time : ℚ)
deriving DecidableEq

/-! ### The `KarplusStrong` ring-buffer class (synth-core.js lines 632-669) -/

/-- `this.decay = 0.996` set in the `KarplusStrong` constructor. -/
def ksDecay : ℚ := 996/1000

/-- `this.bufferLength = Math.round(this.sampleRate / frequency)` followed by
`this.bufferLength = Math.max(4, this.bufferLength)` in the constructor. -/
def ksBufferLength (frequency sampleRate : ℚ) : ℤ :=
  let b := jsRound (sampleRate / frequency)
  max 4 b

/-- The constructor's excitation loop: the buffer is filled once with
`(Math.random() - 0.5) * 2`, the i-th draw of the stream `rand`. -/
def ksInitBuffer (rand : ℕ → ℚ) (frequency sampleRate : ℚ) : List ℚ :=
  (List.range (ksBufferLength frequency sampleRate).toNat).map
    (fun i => (rand i - 1/2) * 2)

/-- `KarplusStrong.tic()`: `sample1 = buffer.shift()`, `sample2 = buffer[0]`,
`newSample = (sample1 + sample2) * 0.5 * this.decay`, `buffer.push(newSample)`,
`return sample1`.  On a buffer with fewer than two samples the JavaScript
would read `undefined`; that case is `none`. -/
def tic (decay : ℚ) : List ℚ → Option (ℚ × List ℚ)
  | s1 :: s2 :: rest =>
      some (s1, (s2 :: rest) ++ [(s1 + s2) * (1/2) * decay])
  | _ => none

/-- Running `n` consecutive `tic` steps, collecting the emitted output
samples in order together with the final buffer. -/
def ticRun (decay : ℚ) : List ℚ → ℕ → Option (List ℚ × List ℚ)
  | buf, 0 => some ([], buf)
  | buf, n + 1 =>
      (tic decay buf).bind fun p =>
        (ticRun decay p.2 n).map fun q => (p.1 :: q.1, q.2)

/-- The buffer after one `tic` step (unchanged when `tic` is undefined);
a total next-state function used to phrase the step loop as an iteration. -/
def ticNext (decay : ℚ) (buf : List ℚ) : List ℚ :=
  match tic decay buf with
  | some p => p.2
  | none => buf

/-- Largest absolute sample value held in a buffer (0 for the empty list). -/
def maxAbs (l : List ℚ) : ℚ := l.foldr (fun x m => max |x| m) 0

/-! ### `SynthCore.playPluck` (synth-core.js lines 47-114): control path -/

/-- The voice built by `SynthCore.playPluck`: installed node parameters, the
scheduled automation events on the feedback and output gains, and the sinks
the output gain is connected to. -/
structure PluckVoice where
  inputGainValue : ℚ
  delayTime : ℚ
  filterFreq : ℚ
  feedbackGain : ℚ
  outGainValue : ℚ
  feedbackEvents : List AutomationEvent
  outGainEvents : List AutomationEvent
  sinks : List Sink
  stopTime : ℚ
deriving DecidableEq

/-- `SynthCore.playPluck(freq, opts)` with `opts = {gain, decay, filterFreq,
duration}` (defaults `0.9, 0.996, 8000, 2000`): installs `opts.decay` as the
feedback gain unvalidated, connects `outGain` to the three sinks, ramps the
feedback gain and the output gain to `0.0001`, and sets
`delayTime = max(0.001, min(1.0, 1 / max(1, freq)))`. -/
def playPluck (now freq gain decay filterFreq duration : ℚ) : PluckVoice :=
  let stopAt := now + duration / 1000
  { inputGainValue := 1
    delayTime := max (1/1000) (min 1 (1 / max 1 freq))
    filterFreq := filterFreq
    feedbackGain := decay
    outGainValue := gain
    feedbackEvents := [AutomationEvent.setValue decay now,
                       AutomationEvent.expRamp (1/10000) stopAt]
    outGainEvents := [AutomationEvent.setValue gain now,
                      AutomationEvent.expRamp (1/10000) (stopAt + 1/20)]
    sinks := allSinks
    stopTime := stopAt }

/-! ### `SynthCore.playPianoLike` (synth-core.js lines 117-181) -/

/-- The voice built by `SynthCore.playPianoLike`: the panner's sinks, the
master gain schedule, and the per-string plucks created in the loop.  The
irrational per-string detune `Math.pow(2, (i-1)*detuneCents/1200)` is taken
as an abstract stream `detune : ℕ → ℚ` of multipliers. -/
structure PianoVoice where
  baseGain : ℚ
  gainEvents : List AutomationEvent
  sinks : List Sink
  stringVoices : List PluckVoice

/-- `SynthCore.playPianoLike(freq, opts)` (defaults `strings = 3`,
`baseGain = 0.4`, `decay = 0.995`, `duration = 2500`): connects the panner
to the three sinks and creates `strings` plucks with gain `1/strings`,
decay `opts.decay - i*0.0005`, filter `min(10000, filterFreq)`. -/
def playPianoLike (now freq : ℚ) (detune : ℕ → ℚ)
    (strings : ℕ) (baseGain decay filterFreq duration : ℚ) : PianoVoice :=
  { baseGain := baseGain
    gainEvents := [AutomationEvent.setValue baseGain now,
                   AutomationEvent.expRamp (1/10000) (now + duration / 1000)]
    sinks := allSinks
    stringVoices :=
      (List.range strings).map fun i =>
        playPluck now (freq * detune i) (1 / (strings : ℚ))
          (decay - (i : ℚ) * (1/2000)) (min 10000 filterFreq) duration }

/-! ### `SynthCore.playTone` / `playTom` (synth-core.js lines 185-205, 306-309) -/

/-- The voice built by `SynthCore.playTone`. -/
structure ToneVoice where
  oscType : String
  frequencyValue : ℚ
  gainEvents : List AutomationEvent
  sinks : List Sink
  startTime : ℚ
  stopTime : ℚ
deriving DecidableEq

/-- `SynthCore.playTone(freq, opts)` (defaults `gain = 0.25`, `duration = 0.6`):
gain set at `opts.gain` and ramped to `0.001` at `now + duration`. -/
def playTone (now freq gain duration : ℚ) (type : String) : ToneVoice :=
  { oscType := type
    frequencyValue := freq
    gainEvents := [AutomationEvent.setValue gain now,
                   AutomationEvent.expRamp (1/1000) (now + duration)]
    sinks := allSinks
    startTime := now
    stopTime := now + duration + 1/50 }

/-- `SynthCore.playTom(freq, opts)` (defaults `freq = 120`, `gain = 0.6`,
`duration = 0.6`) delegates to `playTone` with a sine oscillator. -/
def playTom (now freq gain duration : ℚ) : ToneVoice :=
  playTone now freq gain duration "sine"

/-! ### `SynthCore.playKick` (synth-core.js lines 208-231) -/

/-- The voice built by `SynthCore.playKick`: the oscillator frequency
schedule, the gain schedule, and the sinks of the gain node. -/
structure KickVoice where
  oscType : String
  freqEvents : List AutomationEvent
  gainEvents : List AutomationEvent
  sinks : List Sink
  startTime : ℚ
  stopTime : ℚ
deriving DecidableEq

/-- `SynthCore.playKick(opts)` (defaults `gain = 0.9`, `duration = 0.5`,
`startFreq = 150`, `endFreq = 40`): frequency set at `startFreq` and ramped
exponentially to `Math.max(20, endFreq)` at `now + duration * 0.5`; gain set
at `opts.gain` and ramped exponentially to `0.0001` at `now + duration`. -/
def playKick (now gain duration startFreq endFreq : ℚ) : KickVoice :=
  { oscType := "sine"
    freqEvents := [AutomationEvent.setValue startFreq now,
                   AutomationEvent.expRamp (max 20 endFreq) (now + duration * (1/2))]
    gainEvents := [AutomationEvent.setValue gain now,
                   AutomationEvent.expRamp (1/10000) (now + duration)]
    sinks := allSinks
    startTime := now
    stopTime := now + duration + 1/50 }

/-! ### `SynthCore.playSnare` (synth-core.js lines 234-277) -/

/-- The voice built by `SynthCore.playSnare`: its two output nodes
(`noiseGain` for the band-passed noise burst, `oscGain` for the triangle
body) with their schedules and sink connections. -/
structure SnareVoice where
  bandpassFreq : ℚ
  bandpassQ : ℚ
  oscFreq : ℚ
  noiseGainEvents : List AutomationEvent
  toneGainEvents : List AutomationEvent
  noiseSinks : List Sink
  toneSinks : List Sink
deriving DecidableEq

/-- `SynthCore.playSnare(opts)` (defaults `noiseGain = 0.6`, `toneGain = 0.4`,
`duration = 0.25`): noise gain ramps to `0.0001` at `now + duration`, tone
gain at `now + duration * 0.6`; both output nodes go to the three sinks. -/
def playSnare (now noiseGain toneGain duration : ℚ) : SnareVoice :=
  { bandpassFreq := 1800
    bandpassQ := 7/10
    oscFreq := 200
    noiseGainEvents := [AutomationEvent.setValue noiseGain now,
                        AutomationEvent.expRamp (1/10000) (now + duration)]
    toneGainEvents := [AutomationEvent.setValue toneGain now,
                       AutomationEvent.expRamp (1/10000) (now + duration * (3/5))]
    noiseSinks := allSinks
    toneSinks := allSinks }

/-! ### `SynthCore.playHiHat` (synth-core.js lines 280-303) -/

/-- The voice built by `SynthCore.playHiHat`. -/
structure HiHatVoice where
  highpassFreq : ℚ
  bandpassFreq : ℚ
  bandpassQ : ℚ
  gainEvents : List AutomationEvent
  sinks : List Sink
deriving DecidableEq

/-- `SynthCore.playHiHat(opts)` (defaults `gain = 0.2`, `decay = 0.08`,
`highpass = 5000`): high-pass into band-pass (8000 Hz, Q 1.2) into a gain
that ramps to `0.0001` at `now + decay`; the gain goes to the three sinks. -/
def playHiHat (now gain decay highpass : ℚ) : HiHatVoice :=
  { highpassFreq := highpass
    bandpassFreq := 8000
    bandpassQ := 6/5
    gainEvents := [AutomationEvent.setValue gain now,
                   AutomationEvent.expRamp (1/10000) (now + decay)]
    sinks := allSinks }

/-! ### `SynthCore.pluckGuitarString` (synth-core.js lines 672-718) -/

/-- The voice built by `SynthCore.pluckGuitarString`: the precomputed sample
buffer, the playback gain envelope, and the gain node's sinks. -/
structure GuitarStringVoice where
  samples : List ℚ
  gainEvents : List AutomationEvent
  sinks : List Sink

/-- `const duration = 2.0` hard-coded in `pluckGuitarString`. -/
def guitarDuration : ℚ := 2

/-- `SynthCore.pluckGuitarString(opts)`: frequency `opts.frequency || 220`,
a fresh `KarplusStrong` string seeded from `rand`, and
`numSamples = Math.round(ctx.sampleRate * duration)` samples generated by
running `ksString.tic()` in a loop; playback through one gain node set to
`opts.gain || 0.4` and ramped to `0.0001` at `now + duration`. -/
def pluckGuitarString (rand : ℕ → ℚ) (optFrequency optGain : Option ℚ)
    (sampleRate now : ℚ) : Option GuitarStringVoice :=
  let frequency := jsOr optFrequency 220
  let ks := ksInitBuffer rand frequency sampleRate
  let numSamples := (jsRound (sampleRate * guitarDuration)).toNat
  (ticRun ksDecay ks numSamples).map fun p =>
    { samples := p.1
      gainEvents := [AutomationEvent.setValue (jsOr optGain (2/5)) now,
                     AutomationEvent.expRamp (1/10000) (now + guitarDuration)]
      sinks := allSinks }

/-! ### The guitar page's `pluck` (src/unnamed/part_000 lines 866-952) -/

/-- The voice built by the guitar page's `pluck`: the delay/feedback loop's
installed parameters and the output gain's schedule and sink connections.
`GUITAR.dest` and `GUITAR.analyser` may be absent (the `if (GUITAR.dest)` /
`if (GUITAR.analyser)` guards), so the sink connections are conditional. -/
structure GuitarPluckVoice where
  delayTime : ℚ
  noiseLength : ℤ
  feedbackGain : ℚ
  toneFilterFreq : ℚ
  toneFilterQ : ℚ
  allpassFreq : ℚ
  outGainInitial : ℚ
  outGainEvents : List AutomationEvent
  sinks : List Sink
  cleanupTimeMs : ℚ
deriving DecidableEq

/-- `pluck(freq, {strength = 0.9, damping = 0.95, duration = 3.0})`:
returns `undefined` (`none`) when `freq <= 0`; otherwise caps
`delayTime = min(0.5, 1/freq)`, installs
`feedbackGain = Math.max(0.0, Math.min(0.999, damping))`, sets the tone
filter to `max(800, freq*6)` with Q `0.6`, the all-pass to
`max(200, freq*4)`, the output gain to `max(0.02, min(1.0, strength))`
ramped to `0.0001` at `now + max(0.4, duration)`, and connects the output
gain to `ctx.destination` always and to `GUITAR.dest` / `GUITAR.analyser`
only when they exist. -/
def pluck (now sampleRate freq strength damping duration : ℚ)
    (destAvailable analyserAvailable : Bool) : Option GuitarPluckVoice :=
  if freq ≤ 0 then none
  else
    let delayTime := min (1/2) (1/freq)
    let initialGain := max (1/50) (min 1 strength)
    some
      { delayTime := delayTime
        noiseLength := max 128 ⌊sampleRate * min (1/25) (delayTime * 2)⌋
        feedbackGain := max 0 (min (999/1000) damping)
        toneFilterFreq := max 800 (freq * 6)
        toneFilterQ := 3/5
        allpassFreq := max 200 (freq * 4)
        outGainInitial := initialGain
        outGainEvents := [AutomationEvent.setValue initialGain now,
                          AutomationEvent.expRamp (1/10000) (now + max (2/5) duration)]
        sinks := [Sink.audible]
                  ++ (if destAvailable then [Sink.capture] else [])
                  ++ (if analyserAvailable then [Sink.analysis] else [])
        cleanupTimeMs := (duration + 1/2) * 1000 }

/-- Installed feedback gain of a guitar-page pluck, when the voice exists. -/
def pluckFeedbackOf : Option GuitarPluckVoice → Option ℚ :=
  Option.map GuitarPluckVoice.feedbackGain

/-- Sink connections of a guitar-page pluck, when the voice exists. -/
def pluckSinksOf : Option GuitarPluckVoice → Option (List Sink) :=
  Option.map GuitarPluckVoice.sinks

/-! ### Helper lemmas about `tic` and `ticRun` -/

theorem tic_eq_of_two_le (decay : ℚ) (buf : List ℚ) (h : 2 ≤ buf.length) :
    tic decay buf
      = some (buf.headI,
          buf.tail ++ [(buf.headI + buf.tail.headI) * (1/2) * decay]) := by
  match buf with
  | [] => simp at h
  | [x] => simp at h
  | s1 :: s2 :: rest => rfl

theorem ticNext_eq (decay : ℚ) (buf : List ℚ) (h : 2 ≤ buf.length) :
    ticNext decay buf
      = buf.tail ++ [(buf.headI + buf.tail.headI) * (1/2) * decay] := by
  unfold ticNext
  rw [tic_eq_of_two_le decay buf h]

theorem ticNext_length (decay : ℚ) (buf : List ℚ) (h : 2 ≤ buf.length) :
    (ticNext decay buf).length = buf.length := by
  rw [ticNext_eq decay buf h]
  simp
  omega

theorem ticNext_two_le (decay : ℚ) (buf : List ℚ) (h : 2 ≤ buf.length) :
    2 ≤ (ticNext decay buf).length := by
  rw [ticNext_length decay buf h]; exact h

theorem ticNext_iterate_length (decay : ℚ) :
    ∀ (n : ℕ) (buf : List ℚ), 2 ≤ buf.length →
      ((ticNext decay)^[n] buf).length = buf.length := by
  intro n
  induction n with
  | zero => intro buf _; rfl
  | succ n ih =>
    intro buf h
    rw [Function.iterate_succ_apply, ih (ticNext decay buf) (ticNext_two_le decay buf h),
      ticNext_length decay buf h]

theorem ticRun_spec (decay : ℚ) :
    ∀ (n : ℕ) (buf : List ℚ), 2 ≤ buf.length →
      ∃ outs, ticRun decay buf n = some (outs, (ticNext decay)^[n] buf)
        ∧ outs.length = n
        ∧ ∀ i, i < n → outs.getD i 0 = ((ticNext decay)^[i] buf).headI := by
  intro n
  induction n with
  | zero =>
    intro buf _
    exact ⟨[], rfl, rfl, fun i hi => absurd hi (Nat.not_lt_zero i)⟩
  | succ n ih =>
    intro buf h
    obtain ⟨outs, hrun, hlen, hout⟩ := ih (ticNext decay buf) (ticNext_two_le decay buf h)
    refine ⟨buf.headI :: outs, ?_, by simp [hlen], ?_⟩
    · have hstep : ticRun decay buf (n + 1)
          = (tic decay buf).bind fun p =>
              (ticRun decay p.2 n).map fun q => (p.1 :: q.1, q.2) := rfl
      rw [hstep, tic_eq_of_two_le decay buf h, ← ticNext_eq decay buf h]
      simp [hrun, Function.iterate_succ_apply]
    · intro i hi
      cases i with
      | zero => simp
      | succ i =>
        have := hout i (by omega)
        simpa [Function.iterate_succ_apply] using this

/-- Splitting a run of `m + n` steps at step `m`. -/
theorem ticRun_add (decay : ℚ) :
    ∀ (m : ℕ) (n : ℕ) (buf outs1 fin1 : List ℚ),
      ticRun decay buf m = some (outs1, fin1) →
      ∀ outs2 fin2, ticRun decay fin1 n = some (outs2, fin2) →
      ticRun decay buf (m + n) = some (outs1 ++ outs2, fin2) := by
  intro m
  induction m with
  | zero =>
    intro n buf outs1 fin1 h1 outs2 fin2 h2
    have h0 : ticRun decay buf 0 = some ([], buf) := rfl
    rw [h0] at h1
    obtain ⟨rfl, rfl⟩ : outs1 = [] ∧ fin1 = buf := by
      constructor <;> · injection h1 with h; injection h with ha hb; simp [ha.symm, hb.symm]
    simpa using h2
  | succ m ih =>
    intro n buf outs1 fin1 h1 outs2 fin2 h2
    have hstep : ticRun decay buf (m + 1)
        = (tic decay buf).bind fun p =>
            (ticRun decay p.2 m).map fun q => (p.1 :: q.1, q.2) := rfl
    rw [hstep] at h1
    cases htic : tic decay buf with
    | none => rw [htic] at h1; simp at h1
    | some p =>
      rw [htic] at h1
      replace h1 : Option.map (fun q => (p.1 :: q.1, q.2)) (ticRun decay p.2 m)
          = some (outs1, fin1) := h1
      cases hrec : ticRun decay p.2 m with
      | none => rw [hrec] at h1; simp at h1
      | some q =>
        rw [hrec] at h1
        simp at h1
        obtain ⟨ho, hf⟩ := h1
        have hmid := ih n p.2 q.1 fin1 (by rw [hrec, ← hf]) outs2 fin2 h2
        have hstep2 : ticRun decay buf (m + 1 + n)
            = (tic decay buf).bind fun p =>
                (ticRun decay p.2 (m + n)).map fun q => (p.1 :: q.1, q.2) := by
          rw [Nat.succ_add]
          rfl
        rw [hstep2, htic]
        simp [hmid, ← ho]

/-! ### Helper lemmas about `maxAbs` -/

theorem maxAbs_nonneg (l : List ℚ) : 0 ≤ maxAbs l := by
  induction l with
  | nil => simp [maxAbs]
  | cons y ys ih =>
    exact le_trans ih (le_max_right _ _)

theorem le_maxAbs_of_mem {x : ℚ} {l : List ℚ} (h : x ∈ l) : |x| ≤ maxAbs l := by
  induction l with
  | nil => cases h
  | cons y ys ih =>
    rcases List.mem_cons.mp h with rfl | h2
    · exact le_max_left _ _
    · exact le_trans (ih h2) (le_max_right _ _)

theorem maxAbs_le {B : ℚ} {l : List ℚ} (hB : 0 ≤ B) (h : ∀ x ∈ l, |x| ≤ B) :
    maxAbs l ≤ B := by
  induction l with
  | nil => simpa [maxAbs]
  | cons y ys ih =>
    exact max_le (h y (by simp)) (ih fun x hx => h x (by simp [hx]))

/-! ### The decay invariant of the `tic` loop

Running the loop splits the buffer into an "old" zone `u` (samples present
before the run, bounded by `B`) and a "new" zone of samples pushed during
the run, each bounded by `decay * B`; after `u.length` steps only new
samples remain. -/

theorem ticRun_zone (decay : ℚ) (hd0 : 0 ≤ decay) (hd1 : decay ≤ 1)
    (B : ℚ) (hB : 0 ≤ B) :
    ∀ (n : ℕ) (u v : List ℚ), 2 ≤ (u ++ v).length →
      (∀ x ∈ u, |x| ≤ B) → (∀ x ∈ v, |x| ≤ decay * B) →
      ∃ outs fin, ticRun decay (u ++ v) n = some (outs, fin)
        ∧ fin.length = (u ++ v).length
        ∧ (∀ x ∈ outs, |x| ≤ B)
        ∧ ∃ v2, fin = u.drop n ++ v2 ∧ ∀ x ∈ v2, |x| ≤ decay * B := by
  have hdB : decay * B ≤ B := by nlinarith
  intro n
  induction n with
  | zero =>
    intro u v _ hu hv
    exact ⟨[], u ++ v, rfl, rfl, by simp, v, by simp, hv⟩
  | succ n ih =>
    intro u v hlen hu hv
    match u with
    | x :: u2 =>
      match hu2v : u2 ++ v with
      | [] =>
        exfalso
        have h0 : (u2 ++ v).length = 0 := by rw [hu2v]; rfl
        simp only [List.length_append] at h0
        simp only [List.length_append, List.length_cons] at hlen
        omega
      | y :: w =>
        have hxB : |x| ≤ B := hu x (by simp)
        have hyB : |y| ≤ B := by
          have hy : y ∈ u2 ++ v := by rw [hu2v]; simp
          rcases List.mem_append.mp hy with h2 | h2
          · exact hu y (by simp [h2])
          · exact le_trans (hv y h2) hdB
        have hnew : |(x + y) * (1/2) * decay| ≤ decay * B := by
          rw [abs_mul, abs_mul, abs_of_nonneg hd0]
          have habs : |x + y| ≤ |x| + |y| := abs_add x y
          have h12 : |(1:ℚ)/2| = 1/2 := by norm_num
          rw [h12]
          nlinarith [abs_nonneg (x + y)]
        have hbufeq : (x :: u2) ++ v = x :: y :: w := by
          rw [List.cons_append, hu2v]
        have hstep : tic decay ((x :: u2) ++ v)
            = some (x, (y :: w) ++ [(x + y) * (1/2) * decay]) := by
          rw [hbufeq]; rfl
        have hrest : (y :: w) ++ [(x + y) * (1/2) * decay]
            = u2 ++ (v ++ [(x + y) * (1/2) * decay]) := by
          rw [← hu2v, List.append_assoc]
        have hlen2 : 2 ≤ (u2 ++ (v ++ [(x + y) * (1/2) * decay])).length := by
          rw [← hrest]
          simp only [List.length_append, List.length_cons, List.length_nil]
          omega
        have hv2 : ∀ z ∈ v ++ [(x + y) * (1/2) * decay], |z| ≤ decay * B := by
          intro z hz
          rcases List.mem_append.mp hz with h2 | h2
          · exact hv z h2
          · rw [List.mem_singleton.mp h2]; exact hnew
        obtain ⟨outs, fin, hrun, hflen, houts, v2, hfin, hbound⟩ :=
          ih u2 (v ++ [(x + y) * (1/2) * decay]) hlen2
            (fun z hz => hu z (by simp [hz])) hv2
        refine ⟨x :: outs, fin, ?_, ?_, ?_, v2, ?_, hbound⟩
        · have hunfold : ticRun decay ((x :: u2) ++ v) (n + 1)
              = (tic decay ((x :: u2) ++ v)).bind fun p =>
                  (ticRun decay p.2 n).map fun q => (p.1 :: q.1, q.2) := rfl
          rw [hunfold, hstep]
          have hthis : ticRun decay ((y :: w) ++ [(x + y) * (1/2) * decay]) n
              = some (outs, fin) := by rw [hrest]; exact hrun
          show Option.map (fun q => (x :: q.1, q.2))
              (ticRun decay ((y :: w) ++ [(x + y) * (1/2) * decay]) n)
            = some (x :: outs, fin)
          rw [hthis]
          rfl
        · rw [hflen]
          simp only [List.length_append, List.length_cons, List.length_nil]
          omega
        · intro z hz
          rcases List.mem_cons.mp hz with rfl | h2
          · exact hxB
          · exact houts z h2
        · rw [List.drop_succ_cons]
          exact hfin
    | [] =>
      match v, hlen with
      | s1 :: s2 :: rest, _ =>
        have hs1 : |s1| ≤ decay * B := hv s1 (by simp)
        have hs2 : |s2| ≤ decay * B := hv s2 (by simp)
        have hnew : |(s1 + s2) * (1/2) * decay| ≤ decay * B := by
          rw [abs_mul, abs_mul, abs_of_nonneg hd0]
          have habs : |s1 + s2| ≤ |s1| + |s2| := abs_add s1 s2
          have h12 : |(1:ℚ)/2| = 1/2 := by norm_num
          rw [h12]
          nlinarith [abs_nonneg (s1 + s2), mul_nonneg hd0 hB]
        have hlen2 : 2 ≤ ([] ++ ((s2 :: rest) ++ [(s1 + s2) * (1/2) * decay])).length := by
          simp
        have hv2 : ∀ z ∈ (s2 :: rest) ++ [(s1 + s2) * (1/2) * decay], |z| ≤ decay * B := by
          intro z hz
          rcases List.mem_append.mp hz with h2 | h2
          · exact hv z (by simp [List.mem_cons.mp h2])
          · rw [List.mem_singleton.mp h2]; exact hnew
        obtain ⟨outs, fin, hrun, hflen, houts, v2, hfin, hbound⟩ :=
          ih [] ((s2 :: rest) ++ [(s1 + s2) * (1/2) * decay]) hlen2
            (by intro z hz; cases hz) hv2
        refine ⟨s1 :: outs, fin, ?_, ?_, ?_, v2, ?_, hbound⟩
        · have hunfold : ticRun decay ([] ++ s1 :: s2 :: rest) (n + 1)
              = (tic decay (s1 :: s2 :: rest)).bind fun p =>
                  (ticRun decay p.2 n).map fun q => (p.1 :: q.1, q.2) := rfl
          rw [hunfold]
          have hstep : tic decay (s1 :: s2 :: rest)
              = some (s1, (s2 :: rest) ++ [(s1 + s2) * (1/2) * decay]) := rfl
          rw [hstep]
          simp only [List.nil_append] at hrun
          show Option.map (fun q => (s1 :: q.1, q.2))
              (ticRun decay ((s2 :: rest) ++ [(s1 + s2) * (1/2) * decay]) n)
            = some (s1 :: outs, fin)
          rw [hrun]
          rfl
        · rw [hflen]
          simp only [List.length_append, List.length_cons, List.length_nil]
        · intro z hz
          rcases List.mem_cons.mp hz with rfl | h2
          · exact le_trans hs1 hdB
          · exact houts z h2
        · simpa using hfin
      | [s], h => simp at h
      | [], h => simp at h

/-- One full pass over a buffer attenuates every sample to at most
`decay` times the original bound. -/
theorem ticRun_pass (decay : ℚ) (hd0 : 0 ≤ decay) (hd1 : decay ≤ 1)
    (B : ℚ) (hB : 0 ≤ B) (buf : List ℚ) (h2 : 2 ≤ buf.length)
    (hbuf : ∀ x ∈ buf, |x| ≤ B) :
    ∃ outs fin, ticRun decay buf buf.length = some (outs, fin)
      ∧ fin.length = buf.length ∧ ∀ x ∈ fin, |x| ≤ decay * B := by
  obtain ⟨outs, fin, hrun, hflen, _, v2, hfin, hbound⟩ :=
    ticRun_zone decay hd0 hd1 B hB buf.length buf []
      (by simpa using h2) (by simpa using hbuf) (by intro x hx; cases hx)
  refine ⟨outs, fin, by simpa using hrun, by simpa using hflen, ?_⟩
  intro x hx
  apply hbound
  have hdrop : List.drop buf.length buf = [] := by
    simp
  rw [hfin, hdrop, List.nil_append] at hx
  exact hx

/-- `k` full passes attenuate every sample to at most `decay ^ k` times the
original bound. -/
theorem ticRun_passes (decay : ℚ) (hd0 : 0 ≤ decay) (hd1 : decay ≤ 1)
    (buf : List ℚ) (h2 : 2 ≤ buf.length) (B : ℚ) (hB : 0 ≤ B)
    (hbuf : ∀ x ∈ buf, |x| ≤ B) :
    ∀ k : ℕ, ∃ outs fin, ticRun decay buf (k * buf.length) = some (outs, fin)
      ∧ fin.length = buf.length ∧ ∀ x ∈ fin, |x| ≤ decay ^ k * B := by
  intro k
  induction k with
  | zero =>
    refine ⟨[], buf, by rw [Nat.zero_mul]; exact rfl, rfl, by simpa using hbuf⟩
  | succ k ih =>
    obtain ⟨outs, fin, hrun, hflen, hbound⟩ := ih
    have hfin2 : 2 ≤ fin.length := by omega
    have hBk : 0 ≤ decay ^ k * B := mul_nonneg (pow_nonneg hd0 k) hB
    obtain ⟨outs2, fin2, hrun2, hflen2, hbound2⟩ :=
      ticRun_pass decay hd0 hd1 (decay ^ k * B) hBk fin hfin2 hbound
    refine ⟨outs ++ outs2, fin2, ?_, by omega, ?_⟩
    · have hksucc : (k + 1) * buf.length = k * buf.length + buf.length :=
        Nat.succ_mul k buf.length
      rw [hksucc]
      have hrun2' : ticRun decay fin buf.length = some (outs2, fin2) := by
        rw [← hflen]; exact hrun2
      exact ticRun_add decay (k * buf.length) buf.length buf outs fin hrun outs2 fin2 hrun2'
    · intro x hx
      have := hbound2 x hx
      calc |x| ≤ decay * (decay ^ k * B) := this
        _ = decay ^ (k + 1) * B := by ring

/-- For `decay < 1` the buffer contents eventually fall below any positive
bound `ε`. -/
theorem ticRun_eventually_small (decay : ℚ) (hd0 : 0 ≤ decay) (hd1 : decay < 1)
    (buf : List ℚ) (h2 : 2 ≤ buf.length) (ε : ℚ) (hε : 0 < ε) :
    ∃ n outs fin, ticRun decay buf n = some (outs, fin)
      ∧ ∀ x ∈ fin, |x| < ε := by
  have hM : 0 ≤ maxAbs buf := maxAbs_nonneg buf
  have hbuf : ∀ x ∈ buf, |x| ≤ maxAbs buf := fun x hx => le_maxAbs_of_mem hx
  obtain ⟨k, hk⟩ : ∃ k : ℕ, decay ^ k * maxAbs buf < ε := by
    rcases eq_or_lt_of_le hM with hM0 | hMpos
    · exact ⟨0, by rw [← hM0]; simpa⟩
    · obtain ⟨k, hk⟩ := exists_pow_lt_of_lt_one (div_pos hε hMpos) hd1
      refine ⟨k, ?_⟩
      rw [lt_div_iff₀ hMpos] at hk
      exact hk
  obtain ⟨outs, fin, hrun, _, hbound⟩ :=
    ticRun_passes decay hd0 (le_of_lt hd1) buf h2 (maxAbs buf) hM hbuf k
  exact ⟨k * buf.length, outs, fin, hrun,
    fun x hx => lt_of_le_of_lt (hbound x hx) hk⟩

/-- A single `tic` step never increases the largest absolute sample value,
and the emitted output sample is bounded by it. -/
theorem tic_maxAbs_le (decay : ℚ) (hd0 : 0 ≤ decay) (hd1 : decay ≤ 1)
    (buf : List ℚ) (h2 : 2 ≤ buf.length) (out : ℚ) (buf2 : List ℚ)
    (h : tic decay buf = some (out, buf2)) :
    maxAbs buf2 ≤ maxAbs buf ∧ |out| ≤ maxAbs buf := by
  match buf, h2 with
  | s1 :: s2 :: rest, _ =>
    have hh : tic decay (s1 :: s2 :: rest)
        = some (s1, (s2 :: rest) ++ [(s1 + s2) * (1/2) * decay]) := rfl
    rw [hh] at h
    obtain ⟨ho, hb⟩ : s1 = out ∧ (s2 :: rest) ++ [(s1 + s2) * (1/2) * decay] = buf2 := by
      injection h with h
      injection h with ha hb
      exact ⟨ha, hb⟩
    have hM : 0 ≤ maxAbs (s1 :: s2 :: rest) := maxAbs_nonneg _
    have hs1 : |s1| ≤ maxAbs (s1 :: s2 :: rest) := le_maxAbs_of_mem (by simp)
    have hs2 : |s2| ≤ maxAbs (s1 :: s2 :: rest) := le_maxAbs_of_mem (by simp)
    constructor
    · rw [← hb]
      apply maxAbs_le hM
      intro x hx
      rcases List.mem_append.mp hx with h3 | h3
      · exact le_maxAbs_of_mem (by simp [List.mem_cons.mp h3])
      · rw [List.mem_singleton.mp h3]
        rw [abs_mul, abs_mul, abs_of_nonneg hd0]
        have habs : |s1 + s2| ≤ |s1| + |s2| := abs_add s1 s2
        have h12 : |(1:ℚ)/2| = 1/2 := by norm_num
        rw [h12]
        nlinarith [abs_nonneg (s1 + s2)]
    · rw [← ho]; exact hs1

/-- A zero-filled buffer stays zero-filled and outputs only zeros: the pure
step loop injects no excitation after initialization. -/
theorem ticRun_replicate_zero (decay : ℚ) {L : ℕ} (hL : 2 ≤ L) :
    ∀ n : ℕ, ticRun decay (List.replicate L (0:ℚ)) n
      = some (List.replicate n 0, List.replicate L 0) := by
  have hstep : tic decay (List.replicate L (0:ℚ))
      = some (0, List.replicate L 0) := by
    match L, hL with
    | (m + 2), _ =>
      show tic decay (List.replicate (m + 2) (0:ℚ)) = _
      rw [List.replicate_succ, List.replicate_succ]
      show some ((0:ℚ), ((0:ℚ) :: List.replicate m 0) ++ [(0 + 0) * (1/2) * decay]) = _
      have hz : ((0:ℚ) + 0) * (1/2) * decay = 0 := by ring
      have hlist : (List.replicate m (0:ℚ)) ++ [(0:ℚ)]
          = (0:ℚ) :: List.replicate m 0 := by
        rw [← List.replicate_succ', List.replicate_succ]
      rw [hz]
      show some ((0:ℚ), (0:ℚ) :: ((List.replicate m (0:ℚ)) ++ [(0:ℚ)])) = _
      rw [hlist]
  intro n
  induction n with
  | zero => rfl
  | succ n ih =>
    have hunfold : ticRun decay (List.replicate L (0:ℚ)) (n + 1)
        = (tic decay (List.replicate L (0:ℚ))).bind fun p =>
            (ticRun decay p.2 n).map fun q => (p.1 :: q.1, q.2) := rfl
    rw [hunfold, hstep]
    show Option.map (fun q => ((0:ℚ) :: q.1, q.2))
        (ticRun decay (List.replicate L (0:ℚ)) n)
      = some (List.replicate (n + 1) 0, List.replicate L 0)
    rw [ih]
    show some ((0:ℚ) :: List.replicate n 0, List.replicate L (0:ℚ))
      = some (List.replicate (n + 1) (0:ℚ), List.replicate L 0)
    rw [← List.replicate_succ]

/-! ### Helper lemmas about the constructed delay line -/

theorem ksInitBuffer_length (rand : ℕ → ℚ) (frequency sampleRate : ℚ) :
    (ksInitBuffer rand frequency sampleRate).length
      = (ksBufferLength frequency sampleRate).toNat := by
  simp [ksInitBuffer]

theorem four_le_ksInitBuffer_length (rand : ℕ → ℚ) (frequency sampleRate : ℚ) :
    4 ≤ (ksInitBuffer rand frequency sampleRate).length := by
  rw [ksInitBuffer_length]
  have h4 : (4:ℤ) ≤ ksBufferLength frequency sampleRate := le_max_left _ _
  omega

theorem ksInitBuffer_getD (rand : ℕ → ℚ) (frequency sampleRate : ℚ) (i : ℕ)
    (hi : i < (ksInitBuffer rand frequency sampleRate).length) :
    (ksInitBuffer rand frequency sampleRate).getD i 0 = (rand i - 1/2) * 2 := by
  rw [ksInitBuffer_length] at hi
  simp [ksInitBuffer, List.getD_eq_getElem?_getD, List.getElem?_range, hi]

/-! ### The claims -/

/-- C1: for every Karplus-Strong string state with buffer samples `s1`
(oldest, the head) and `s2` (the sample immediately following it), one
synthesis step computes `next = (s1 + s2) * 0.5 * dampingFactor`, pushes
`next` onto the delay line evicting the oldest sample (the buffer keeps its
length, loses its old head, gains `next` at the back), and returns `s1` as
that step's output sample. -/
theorem tic_step_correct (decay : ℚ) (buf : List ℚ) (h : 2 ≤ buf.length) :
    ∃ out buf2, tic decay buf = some (out, buf2)
      ∧ out = buf.headI
      ∧ buf2.length = buf.length
      ∧ buf2.dropLast = buf.tail
      ∧ buf2.getLast? = some ((buf.headI + buf.tail.headI) * (1/2) * decay) := by
  refine ⟨buf.headI, buf.tail ++ [(buf.headI + buf.tail.headI) * (1/2) * decay],
    tic_eq_of_two_le decay buf h, rfl, ?_, ?_, ?_⟩
  · simp only [List.length_append, List.length_tail, List.length_cons, List.length_nil]
    omega
  · exact List.dropLast_concat ..
  · exact List.getLast?_concat ..

/-- Witness for C1 at the concrete buffer `[1, 2, 3, 4]` with damping `1/2`. -/
theorem tic_step_correct_witness :
    ∃ out buf2, tic (1/2) [1, 2, 3, 4] = some (out, buf2)
      ∧ out = ([1, 2, 3, 4] : List ℚ).headI
      ∧ buf2.length = ([1, 2, 3, 4] : List ℚ).length
      ∧ buf2.dropLast = ([1, 2, 3, 4] : List ℚ).tail
      ∧ buf2.getLast? = some ((([1, 2, 3, 4] : List ℚ).headI
          + ([1, 2, 3, 4] : List ℚ).tail.headI) * (1/2) * (1/2)) :=
  tic_step_correct (1/2) [1, 2, 3, 4] (by decide)

/-- C2 counterexample: with `dampingFactor = 1/2 ∈ (0,1)` and the all-zero
initial buffer `[0,0,0,0]`, the step loop's output sample sequence is
constantly zero over an 8-step (two full periods) window, so the output
amplitude does not strictly decrease: the last output's magnitude equals the
first output's magnitude. -/
theorem envelope_not_strict_cex :
    (0 < (1:ℚ)/2 ∧ (1:ℚ)/2 < 1)
    ∧ ticRun (1/2) [0, 0, 0, 0] 8
        = some ([0, 0, 0, 0, 0, 0, 0, 0], [0, 0, 0, 0])
    ∧ |([0, 0, 0, 0, 0, 0, 0, 0] : List ℚ).getD 7 0|
        = |([0, 0, 0, 0, 0, 0, 0, 0] : List ℚ).getD 0 0| := by
  refine ⟨by norm_num, by norm_num [ticRun, tic], by norm_num [List.getD_cons_succ, List.getD_cons_zero]⟩

/-- C2 (amended): for every `dampingFactor` strictly between 0 and 1 and
every initial buffer contents, the maximum absolute sample value in the
delay line never increases across a synthesis step and bounds the emitted
output sample, and the buffer contents eventually fall below every fixed
positive audibility epsilon (strict decrease of the output amplitude fails
for the all-zero buffer, and only eventual decay below epsilon is
guaranteed, not decay by a fixed scheduled expiry). -/
theorem pluck_envelope_decay (decay : ℚ) (hd0 : 0 < decay) (hd1 : decay < 1)
    (buf : List ℚ) (h2 : 2 ≤ buf.length) :
    (∀ out buf2, tic decay buf = some (out, buf2) →
        maxAbs buf2 ≤ maxAbs buf ∧ |out| ≤ maxAbs buf)
    ∧ ∀ ε : ℚ, 0 < ε →
        ∃ n outs fin, ticRun decay buf n = some (outs, fin)
          ∧ ∀ x ∈ fin, |x| < ε := by
  constructor
  · intro out buf2 h
    exact tic_maxAbs_le decay (le_of_lt hd0) (le_of_lt hd1) buf h2 out buf2 h
  · intro ε hε
    exact ticRun_eventually_small decay (le_of_lt hd0) hd1 buf h2 ε hε

/-- Witness for C2's amended theorem at damping `0.996` and buffer
`[1, 0, 0, 0]`. -/
theorem pluck_envelope_decay_witness :
    (∀ out buf2, tic (996/1000) [1, 0, 0, 0] = some (out, buf2) →
        maxAbs buf2 ≤ maxAbs [1, 0, 0, 0] ∧ |out| ≤ maxAbs [1, 0, 0, 0])
    ∧ ∀ ε : ℚ, 0 < ε →
        ∃ n outs fin, ticRun (996/1000) [1, 0, 0, 0] n = some (outs, fin)
          ∧ ∀ x ∈ fin, |x| < ε :=
  pluck_envelope_decay (996/1000) (by norm_num) (by norm_num) [1, 0, 0, 0] (by decide)

/-- C3: for every positive `frequencyHz` and every `sampleRate`, the delay
line constructed by the `KarplusStrong` constructor has length exactly
`max(4, round(sampleRate / frequencyHz))`. -/
theorem delay_line_length_spec (rand : ℕ → ℚ) (frequency sampleRate : ℚ)
    (_hf : 0 < frequency) :
    (ksInitBuffer rand frequency sampleRate).length
      = (max 4 (jsRound (sampleRate / frequency))).toNat := by
  rw [ksInitBuffer_length]
  rfl

/-- Witness for C3 at a very high frequency (20000 Hz > 44100/4, floored to
length 4) and a very low one (5 Hz < 10 Hz, length 8820). -/
theorem delay_line_length_spec_witness :
    ((ksInitBuffer (fun _ => 0) 20000 44100).length
        = (max 4 (jsRound ((44100:ℚ) / 20000))).toNat
      ∧ (max 4 (jsRound ((44100:ℚ) / 20000))).toNat = 4)
    ∧ ((ksInitBuffer (fun _ => 0) 5 44100).length
        = (max 4 (jsRound ((44100:ℚ) / 5))).toNat
      ∧ (max 4 (jsRound ((44100:ℚ) / 5))).toNat = 8820) :=
  ⟨⟨delay_line_length_spec (fun _ => 0) 20000 44100 (by norm_num), by norm_num [jsRound]; rfl⟩,
   ⟨delay_line_length_spec (fun _ => 0) 5 44100 (by norm_num), by norm_num [jsRound]; rfl⟩⟩

/-- C4 counterexample: triggering the guitar-page `pluck` with
`damping = 1.5 ≥ 1` is not rejected — a voice is created and the installed
feedback gain is silently clamped to `0.999`; `SynthCore.playPluck` with
`decay = 1.5` likewise creates a voice and installs `1.5` unvalidated. -/
theorem damping_not_rejected_cex :
    (pluck 0 44100 220 (9/10) (3/2) 3 true true).isSome = true
    ∧ pluckFeedbackOf (pluck 0 44100 220 (9/10) (3/2) 3 true true)
        = some (999/1000)
    ∧ (playPluck 0 220 (9/10) (3/2) 8000 2000).feedbackGain = 3/2 := by
  refine ⟨by norm_num [pluck], by norm_num [pluck, pluckFeedbackOf], rfl⟩

/-- C4 (amended): a `dampingFactor ≥ 1` is not rejected and no error is
raised: `SynthCore.playPluck` creates the voice and installs the value
unchanged as the feedback gain, while the guitar-page `pluck` creates the
voice and silently clamps the installed feedback gain to `0.999 < 1`,
which does preserve the decay invariant. -/
theorem damping_ge_one_clamped (now sampleRate freq strength damping duration : ℚ)
    (d a : Bool) (hf : 0 < freq) (hd : 1 ≤ damping) :
    (∃ v, pluck now sampleRate freq strength damping duration d a = some v
        ∧ v.feedbackGain = 999/1000 ∧ v.feedbackGain < 1)
    ∧ (playPluck now freq strength damping 8000 duration).feedbackGain
        = damping := by
  refine ⟨?_, rfl⟩
  have hne : ¬ freq ≤ 0 := not_le.mpr hf
  unfold pluck
  rw [if_neg hne]
  refine ⟨_, rfl, ?_, ?_⟩
  · show max 0 (min (999/1000) damping) = 999/1000
    rw [min_eq_left (by linarith), max_eq_right (by norm_num)]
  · show max 0 (min (999/1000) damping) < 1
    rw [min_eq_left (by linarith), max_eq_right (by norm_num)]
    norm_num

/-- Witness for C4's amended theorem at `freq = 220`, `damping = 1.5`. -/
theorem damping_ge_one_clamped_witness :
    (∃ v, pluck 0 44100 220 (9/10) (3/2) 3 true true = some v
        ∧ v.feedbackGain = 999/1000 ∧ v.feedbackGain < 1)
    ∧ (playPluck 0 220 (9/10) (3/2) 8000 3).feedbackGain = 3/2 :=
  damping_ge_one_clamped 0 44100 220 (9/10) (3/2) 3 true true (by norm_num) (by norm_num)

/-- C5: at construction every delay-line sample is initialized exactly once
to the corresponding fresh random draw, mapped into the fixed amplitude
range `[-1, 1)`, and the pure step loop injects no further excitation: a
buffer holding no energy (all zeros, of the constructed length) stays
all-zero and outputs only zeros for every damping and step count. -/
theorem excitation_init_once (rand : ℕ → ℚ) (frequency sampleRate : ℚ)
    (hr : ∀ i, 0 ≤ rand i ∧ rand i < 1) :
    (∀ i, i < (ksInitBuffer rand frequency sampleRate).length →
        (ksInitBuffer rand frequency sampleRate).getD i 0 = (rand i - 1/2) * 2
        ∧ -1 ≤ (ksInitBuffer rand frequency sampleRate).getD i 0
        ∧ (ksInitBuffer rand frequency sampleRate).getD i 0 < 1)
    ∧ ∀ decay : ℚ, ∀ n : ℕ,
        ticRun decay
            (List.replicate (ksInitBuffer rand frequency sampleRate).length 0) n
          = some (List.replicate n 0,
              List.replicate (ksInitBuffer rand frequency sampleRate).length 0) := by
  constructor
  · intro i hi
    have hg := ksInitBuffer_getD rand frequency sampleRate i hi
    refine ⟨hg, ?_, ?_⟩
    · rw [hg]
      have := (hr i).1
      linarith
    · rw [hg]
      have := (hr i).2
      linarith
  · intro decay n
    apply ticRun_replicate_zero
    have := four_le_ksInitBuffer_length rand frequency sampleRate
    omega

/-- Witness for C5 with the constant draw stream `1/2 ∈ [0,1)`. -/
theorem excitation_init_once_witness :
    (∀ i, i < (ksInitBuffer (fun _ => 1/2) 220 44100).length →
        (ksInitBuffer (fun _ => 1/2) 220 44100).getD i 0 = ((1:ℚ)/2 - 1/2) * 2
        ∧ -1 ≤ (ksInitBuffer (fun _ => 1/2) 220 44100).getD i 0
        ∧ (ksInitBuffer (fun _ => 1/2) 220 44100).getD i 0 < 1)
    ∧ ∀ decay : ℚ, ∀ n : ℕ,
        ticRun decay
            (List.replicate (ksInitBuffer (fun _ => 1/2) 220 44100).length 0) n
          = some (List.replicate n 0,
              List.replicate (ksInitBuffer (fun _ => 1/2) 220 44100).length 0) :=
  excitation_init_once (fun _ => 1/2) 220 44100 (fun _ => ⟨by norm_num, by norm_num⟩)

/-- C6: for every pluck of the precomputed-buffer model, the generated
sample buffer has exactly `round(sampleRate * duration)` samples for the
intended (hard-coded 2-second) duration, the i-th buffer sample equals the
i-th output of the step loop run on the freshly initialized string (the
head of the buffer after `i` iterated steps), and the buffer is played back
through a single gain envelope set to the requested gain and ramped to
`0.0001` at the end of the duration, into the three sinks. -/
theorem guitar_buffer_spec (rand : ℕ → ℚ) (optFrequency optGain : Option ℚ)
    (sampleRate now : ℚ) :
    ∃ v, pluckGuitarString rand optFrequency optGain sampleRate now = some v
      ∧ v.samples.length = (jsRound (sampleRate * guitarDuration)).toNat
      ∧ (∀ i, i < v.samples.length →
          v.samples.getD i 0
            = ((ticNext ksDecay)^[i]
                (ksInitBuffer rand (jsOr optFrequency 220) sampleRate)).headI)
      ∧ v.gainEvents = [AutomationEvent.setValue (jsOr optGain (2/5)) now,
                        AutomationEvent.expRamp (1/10000) (now + guitarDuration)]
      ∧ v.sinks = allSinks := by
  have h2 : 2 ≤ (ksInitBuffer rand (jsOr optFrequency 220) sampleRate).length := by
    have := four_le_ksInitBuffer_length rand (jsOr optFrequency 220) sampleRate
    omega
  obtain ⟨outs, hrun, hlen, hout⟩ :=
    ticRun_spec ksDecay ((jsRound (sampleRate * guitarDuration)).toNat)
      (ksInitBuffer rand (jsOr optFrequency 220) sampleRate) h2
  refine ⟨{ samples := outs,
            gainEvents := [AutomationEvent.setValue (jsOr optGain (2/5)) now,
                           AutomationEvent.expRamp (1/10000) (now + guitarDuration)],
            sinks := allSinks }, ?_, hlen, ?_, rfl, rfl⟩
  · have hdef : pluckGuitarString rand optFrequency optGain sampleRate now
        = (ticRun ksDecay (ksInitBuffer rand (jsOr optFrequency 220) sampleRate)
            ((jsRound (sampleRate * guitarDuration)).toNat)).map
            (fun p => ({ samples := p.1,
                         gainEvents := [AutomationEvent.setValue (jsOr optGain (2/5)) now,
                                        AutomationEvent.expRamp (1/10000) (now + guitarDuration)],
                         sinks := allSinks } : GuitarStringVoice)) := rfl
    rw [hdef, hrun]
    rfl
  · intro i hi
    rw [hlen] at hi
    exact hout i hi

/-- C7: for every kick trigger, the tone generator's frequency is set to
`startFreq` at trigger time and ramped exponentially to the end pitch
floored at 20 Hz, the ramp ending exactly at half the note's duration,
while the gain is ramped exponentially to the near-silence target `0.0001`
reached exactly at end-of-note, strictly after the sweep ends. -/
theorem kick_schedule_spec (now gain duration startFreq endFreq : ℚ)
    (hdur : 0 < duration) :
    ∃ rampEnd noteEnd,
      (playKick now gain duration startFreq endFreq).freqEvents
        = [AutomationEvent.setValue startFreq now,
           AutomationEvent.expRamp (max 20 endFreq) rampEnd]
      ∧ rampEnd = now + duration * (1/2)
      ∧ 20 ≤ max 20 endFreq
      ∧ (20 ≤ endFreq → max 20 endFreq = endFreq)
      ∧ (playKick now gain duration startFreq endFreq).gainEvents
        = [AutomationEvent.setValue gain now,
           AutomationEvent.expRamp (1/10000) noteEnd]
      ∧ noteEnd = now + duration
      ∧ rampEnd < noteEnd := by
  refine ⟨now + duration * (1/2), now + duration, rfl, rfl, le_max_left _ _,
    fun h => max_eq_right h, rfl, rfl, by linarith⟩

/-- Witness for C7 at the spec's scenario
`{startFreq: 150, endFreq: 40, duration: 0.5}`. -/
theorem kick_schedule_spec_witness :
    ∃ rampEnd noteEnd,
      (playKick 0 (9/10) (1/2) 150 40).freqEvents
        = [AutomationEvent.setValue 150 0,
           AutomationEvent.expRamp (max 20 40) rampEnd]
      ∧ rampEnd = 0 + (1:ℚ)/2 * (1/2)
      ∧ 20 ≤ max (20:ℚ) 40
      ∧ ((20:ℚ) ≤ 40 → max (20:ℚ) 40 = 40)
      ∧ (playKick 0 (9/10) (1/2) 150 40).gainEvents
        = [AutomationEvent.setValue (9/10) 0,
           AutomationEvent.expRamp (1/10000) noteEnd]
      ∧ noteEnd = 0 + (1:ℚ)/2
      ∧ rampEnd < noteEnd :=
  kick_schedule_spec 0 (9/10) (1/2) 150 40 (by norm_num)

/-- C8 counterexample: when the shared capture sink is absent
(`GUITAR.dest` null while reusing a shared context), the guitar-page
`pluck` creates a voice whose output is connected to only two sinks, not
three. -/
theorem sink_fanout_cex :
    pluckSinksOf (pluck 0 44100 220 (9/10) (19/20) 3 false true)
      = some [Sink.audible, Sink.analysis]
    ∧ ([Sink.audible, Sink.analysis] : List Sink).length ≠ 3 := by
  constructor
  · norm_num [pluck, pluckSinksOf]
  · decide

/-- C8 (amended): every SynthCore voice's final output node is connected at
creation to exactly the three sinks — for pluck, piano-like (including each
internal string voice), tone, tom, kick, both snare output nodes, hi-hat,
and the precomputed guitar string — while the guitar-page `pluck` connects
the audible output unconditionally but the capture and analysis sinks only
when they exist, so its fan-out equals the full three-sink list iff both
optional sinks are available. -/
theorem sink_fanout_spec (now freq gain decay filterFreq duration sampleRate
      strength damping noiseGain toneGain hhGain hhDecay highpass baseGain : ℚ)
    (oscType : String) (detune : ℕ → ℚ) (strings : ℕ) (rand : ℕ → ℚ)
    (optFrequency optGain : Option ℚ) (d a : Bool) (hf : 0 < freq) :
    (playPluck now freq gain decay filterFreq duration).sinks = allSinks
    ∧ (playPianoLike now freq detune strings baseGain decay filterFreq
        duration).sinks = allSinks
    ∧ (∀ v ∈ (playPianoLike now freq detune strings baseGain decay filterFreq
        duration).stringVoices, v.sinks = allSinks)
    ∧ (playTone now freq gain duration oscType).sinks = allSinks
    ∧ (playTom now freq gain duration).sinks = allSinks
    ∧ (playKick now gain duration freq freq).sinks = allSinks
    ∧ (playSnare now noiseGain toneGain duration).noiseSinks = allSinks
    ∧ (playSnare now noiseGain toneGain duration).toneSinks = allSinks
    ∧ (playHiHat now hhGain hhDecay highpass).sinks = allSinks
    ∧ (∀ v, pluckGuitarString rand optFrequency optGain sampleRate now = some v →
        v.sinks = allSinks)
    ∧ ∀ v, pluck now sampleRate freq strength damping duration d a = some v →
        Sink.audible ∈ v.sinks
        ∧ (v.sinks = allSinks ↔ d = true ∧ a = true) := by
  refine ⟨rfl, rfl, ?_, rfl, rfl, rfl, rfl, rfl, rfl, ?_, ?_⟩
  · intro v hv
    simp only [playPianoLike, List.mem_map] at hv
    obtain ⟨i, _, rfl⟩ := hv
    rfl
  · intro v hv
    obtain ⟨p, _, rfl⟩ := Option.map_eq_some'.mp hv
    rfl
  · intro v hv
    have hne : ¬ freq ≤ 0 := not_le.mpr hf
    unfold pluck at hv
    rw [if_neg hne] at hv
    obtain rfl := Option.some.inj hv
    constructor
    · show Sink.audible ∈ [Sink.audible]
          ++ (if d then [Sink.capture] else [])
          ++ (if a then [Sink.analysis] else [])
      simp
    · show [Sink.audible]
          ++ (if d then [Sink.capture] else [])
          ++ (if a then [Sink.analysis] else []) = allSinks
        ↔ d = true ∧ a = true
      cases d <;> cases a <;> simp [allSinks]

/-- Witness for C8's amended theorem at concrete parameters. -/
theorem sink_fanout_spec_witness :
    (playPluck 0 220 (9/10) (996/1000) 8000 2000).sinks = allSinks
    ∧ (playPianoLike 0 220 (fun _ => 1) 3 (2/5) (996/1000) 8000 2000).sinks
        = allSinks
    ∧ (∀ v ∈ (playPianoLike 0 220 (fun _ => 1) 3 (2/5) (996/1000) 8000
        2000).stringVoices, v.sinks = allSinks)
    ∧ (playTone 0 220 (9/10) 2000 "sine").sinks = allSinks
    ∧ (playTom 0 220 (9/10) 2000).sinks = allSinks
    ∧ (playKick 0 (9/10) 2000 220 220).sinks = allSinks
    ∧ (playSnare 0 (3/5) (2/5) 2000).noiseSinks = allSinks
    ∧ (playSnare 0 (3/5) (2/5) 2000).toneSinks = allSinks
    ∧ (playHiHat 0 (1/5) (2/25) 5000).sinks = allSinks
    ∧ (∀ v, pluckGuitarString (fun _ => 0) none none 44100 0 = some v →
        v.sinks = allSinks)
    ∧ ∀ v, pluck 0 44100 220 (9/10) (19/20) 2000 true true = some v →
        Sink.audible ∈ v.sinks
        ∧ (v.sinks = allSinks ↔ true = true ∧ true = true) :=
  sink_fanout_spec 0 220 (9/10) (996/1000) 8000 2000 44100 (9/10) (19/20)
    (3/5) (2/5) (1/5) (2/25) 5000 (2/5) "sine" (fun _ => 1) 3 (fun _ => 0)
    none none true true (by norm_num)

/-- C9: the plucked-string synthesis at 110 Hz and 44100 Hz sample rate is
deterministic in the excitation randomness: any two random streams that
agree on the draws the excitation actually uses (the delay-line's indices)
produce identical output sample sequences. -/
theorem pluck_deterministic (r1 r2 : ℕ → ℚ) (optGain : Option ℚ) (now : ℚ)
    (h : ∀ i, i < (ksBufferLength 110 44100).toNat → r1 i = r2 i) :
    pluckGuitarString r1 (some 110) optGain 44100 now
      = pluckGuitarString r2 (some 110) optGain 44100 now := by
  have hinit : ksInitBuffer r1 (jsOr (some 110) 220) 44100
      = ksInitBuffer r2 (jsOr (some 110) 220) 44100 := by
    have hj : jsOr (some 110) 220 = (110:ℚ) := by norm_num [jsOr]
    rw [hj]
    unfold ksInitBuffer
    apply List.map_congr_left
    intro i hi
    rw [List.mem_range] at hi
    rw [h i hi]
  simp only [pluckGuitarString]
  rw [hinit]

/-- Witness for C9: a stream that differs from the zero stream only from
index 401 on (past every draw the 110 Hz delay line uses) gives the same
voice. -/
theorem pluck_deterministic_witness :
    pluckGuitarString (fun _ => 0) (some 110) none 44100 0
      = pluckGuitarString (fun i => if i < 401 then 0 else 1) (some 110) none
          44100 0 :=
  pluck_deterministic (fun _ => 0) (fun i => if i < 401 then 0 else 1) none 0
    (fun i hi => by
      have h401 : (ksBufferLength 110 44100).toNat = 401 := by
        norm_num [ksBufferLength, jsRound]; rfl
      rw [h401] at hi
      simp [hi])

/-- C10: for every damping input to the guitar pluck operation — values at
or above 1 and negative values included — the feedback-loop gain actually
installed is clamped into `[0, 0.999]`, so the per-cycle loop attenuation
is strictly below 1 for every accepted pluck. -/
theorem feedback_clamp_range (now sampleRate freq strength damping duration : ℚ)
    (d a : Bool) (hf : 0 < freq) :
    ∃ v, pluck now sampleRate freq strength damping duration d a = some v
      ∧ 0 ≤ v.feedbackGain ∧ v.feedbackGain ≤ 999/1000 ∧ v.feedbackGain < 1 := by
  have hne : ¬ freq ≤ 0 := not_le.mpr hf
  unfold pluck
  rw [if_neg hne]
  have hle : max 0 (min (999/1000) damping) ≤ (999:ℚ)/1000 :=
    max_le (by norm_num) (min_le_left _ _)
  exact ⟨_, rfl, le_max_left 0 _, hle, lt_of_le_of_lt hle (by norm_num)⟩

/-- Witness for C10 at the negative damping input `-5`. -/
theorem feedback_clamp_range_witness :
    ∃ v, pluck 0 44100 330 (11/10) (-5) 10 true false = some v
      ∧ 0 ≤ v.feedbackGain ∧ v.feedbackGain ≤ 999/1000 ∧ v.feedbackGain < 1 :=
  feedback_clamp_range 0 44100 330 (11/10) (-5) 10 true false (by norm_num)

end AlgoRhythm
